import Mathlib

/-!
Verification of the bytecode representation and conversion layer of the hackc
toolchain: the bit-packed `ValueId` encoding (ir_core/newtype.rs), the
`FunctionName` equality/ordering/hashing (hhbc/id.rs), the `AdataId` textual
round trip (hhbc/id.rs), the recursive `TypedValue` conversion and the
unit-level `ir_to_bc` conversion (ir_to_bc/convert.rs), and the textual local
operand decoder (assemble/assemble_imm.rs).

Machine integers are modelled as `Nat`/`Int` with explicit two's-complement
wrapping where the source casts; interned strings are modelled extensionally
(a handle stands for the interned content) except where a claim depends on the
handle itself, in which case an explicit interning table is threaded through.
-/

/-! ## Two's-complement helpers (i32 / u32 as used by ValueId) -/

/-- Source `i32::MIN`, the reserved `ValueId::NONE` sentinel (newtype.rs line 78). -/
def i32Min : Int := -(2 ^ 31)

/-- The u32 modulus. -/
def u32Mod : Nat := 2 ^ 32

/-- The wrapping cast `idx as i32` applied to a u32 value (two's complement). -/
def u32ToI32 (n : Nat) : Int :=
  if n % u32Mod < 2 ^ 31 then ((n % u32Mod : Nat) : Int)
  else ((n % u32Mod : Nat) : Int) - (u32Mod : Nat)

/-- The wrapping cast `raw as u32` applied to an i32 value. -/
def i32ToU32 (i : Int) : Nat := (i % (u32Mod : Int)).toNat

/-- Bitwise complement `!x` on i32: exact on the value, `-x - 1`. -/
def i32Not (i : Int) : Int := -i - 1

/-! ## ValueId (src/hphp/hack/src/hackc/ir/ir_core/newtype.rs lines 72-166)

`InstrId` and `ConstantId` are `newtype_int!` wrappers over `u32`, modelled as
`Nat` (intended range `< 2^32`).  Modelled from the spec: the `newtype` crate
defining the `NONE` sentinel of these index newtypes is not under src/; per
spec section 4.2 the sentinel is the reserved maximum representable index,
`u32::MAX`. -/

/-- Source `InstrId::NONE`, the reserved sentinel produced-value index. -/
def InstrId.noneId : Nat := u32Mod - 1

/-- Source `ConstantId::NONE`, the reserved sentinel constant index. -/
def ConstantId.noneId : Nat := u32Mod - 1

/-- Source `ValueId` (newtype.rs line 73): a single i32 word. -/
structure ValueId where
  raw : Int
deriving DecidableEq, Repr

/-- Source `ValueId::from_instr` (newtype.rs lines 84-88).  The failed
`assert!(idx != InstrId::NONE)` panic is modelled as `none`. -/
def ValueId.fromInstr (idx : Nat) : Option ValueId :=
  if idx = InstrId.noneId then none else some ⟨u32ToI32 idx⟩

/-- Source `ValueId::from_constant` (newtype.rs lines 90-94): stores `!(idx as i32)`.
The failed assert panic is modelled as `none`. -/
def ValueId.fromConstant (idx : Nat) : Option ValueId :=
  if idx = ConstantId.noneId then none else some ⟨i32Not (u32ToI32 idx)⟩

/-- Source `ValueId::none` (newtype.rs lines 96-98). -/
def ValueId.noneValue : ValueId := ⟨i32Min⟩

/-- Source `ValueId::instr` (newtype.rs lines 126-132). -/
def ValueId.instr (v : ValueId) : Option Nat :=
  if 0 ≤ v.raw then some (i32ToU32 v.raw) else none

/-- Source `ValueId::constant` (newtype.rs lines 118-124). -/
def ValueId.constant (v : ValueId) : Option Nat :=
  if 0 ≤ v.raw ∨ v.raw = i32Min then none else some (i32ToU32 (i32Not v.raw))

/-- Source `ValueId::is_instr` (newtype.rs lines 138-140). -/
def ValueId.isInstr (v : ValueId) : Bool := decide (0 ≤ v.raw)

/-- Source `ValueId::is_constant` (newtype.rs lines 134-136). -/
def ValueId.isConstant (v : ValueId) : Bool := decide (v.raw < 0 ∧ v.raw ≠ i32Min)

/-- Source `ValueId::is_none` (newtype.rs lines 142-144). -/
def ValueId.isNone (v : ValueId) : Bool := decide (v.raw = i32Min)

/-- Source `FullInstrId` (newtype.rs lines 162-166). -/
inductive FullInstrId where
  | instr (i : Nat)
  | constant (c : Nat)
  | none
deriving DecidableEq, Repr

/-- Source `ValueId::full` (newtype.rs lines 108-116). -/
def ValueId.full (v : ValueId) : FullInstrId :=
  if 0 ≤ v.raw then .instr (i32ToU32 v.raw)
  else if v.raw = i32Min then .none
  else .constant (i32ToU32 (i32Not v.raw))

/-- A `ValueId` built through one of the three public constructors
(`from_instr` on a u32 index, `from_constant` on a u32 index, `none`). -/
def ValueId.Constructed (v : ValueId) : Prop :=
  (∃ i, i < u32Mod ∧ ValueId.fromInstr i = some v) ∨
  (∃ c, c < u32Mod ∧ ValueId.fromConstant c = some v) ∨
  v = ValueId.noneValue

/-- Exactly one of three booleans is set. -/
def exactlyOneOf (a b c : Bool) : Prop :=
  (a = true ∧ b = false ∧ c = false) ∨
  (a = false ∧ b = true ∧ c = false) ∨
  (a = false ∧ b = false ∧ c = true)

/-! ## String interning and FunctionName (src/hphp/hack/src/hackc/hhbc/id.rs)

The global interner (`intern::string`, declared outside src/) maps strings to
sequentially allocated numeric handles, equal handles iff equal strings
(spec section 4.1).  It is modelled as a table `List String`; a `StringId` is
an index into the table, fresh strings get the next index. -/

/-- Source `intern(s)`: return an existing handle if `s` was already interned, else
allocate the next one (spec section 4.1). -/
def internStr (tbl : List String) (s : String) : List String × Nat :=
  match tbl.findIdx? (fun t => t == s) with
  | some i => (tbl, i)
  | none => (tbl ++ [s], tbl.length)

/-- Source `StringId::as_str()`: reverse lookup, total for any issued handle. -/
def lookupStr (tbl : List String) (id : Nat) : String := tbl.getD id ""

/-- Source `u8::to_ascii_lowercase` lifted to chars (non-ASCII left unchanged). -/
def asciiLowerChar (c : Char) : Char :=
  if 'A' ≤ c ∧ c ≤ 'Z' then Char.ofNat (c.toNat + 32) else c

/-- Source `str::eq_ignore_ascii_case`: equal after ASCII case folding. -/
def strCaseEq (a b : String) : Bool :=
  a.data.map asciiLowerChar == b.data.map asciiLowerChar

/-- Comparison of two chars by code point (the order `str::cmp` induces,
since UTF-8 byte order coincides with code-point order). -/
def charCmp (a b : Char) : Ordering :=
  if a.toNat < b.toNat then .lt else if a.toNat = b.toNat then .eq else .gt

/-- Lexicographic comparison of char lists: `str::cmp`. -/
def listCmp : List Char → List Char → Ordering
  | [], [] => .eq
  | [], _ :: _ => .lt
  | _ :: _, [] => .gt
  | a :: as, b :: bs =>
    match charCmp a b with
    | .eq => listCmp as bs
    | o => o

/-- Source `str::cmp`, byte-lexicographic order on the string content. -/
def strCmp (a b : String) : Ordering := listCmp a.data b.data

/-- Source `FunctionName` (id.rs line 275): a newtype over the interned `StringId`. -/
structure FunctionName where
  id : Nat
deriving DecidableEq, Repr

/-- Source `PartialEq for FunctionName` (id.rs lines 286-290):
`self.as_str().eq_ignore_ascii_case(other.as_str())`. -/
def FunctionName.eq (tbl : List String) (a b : FunctionName) : Bool :=
  strCaseEq (lookupStr tbl a.id) (lookupStr tbl b.id)

/-- The derived `Hash for FunctionName` (id.rs line 273) feeds only the raw
`StringId` handle to the hasher; it is modelled as the handle itself (the
derived implementation's hash stream is injective per handle, and a
content-based `StringId` hash would likewise differ on different bytes). -/
def FunctionName.hash (a : FunctionName) : Nat := a.id

/-- Source `StringId::cmp`.  The implementation lives in the intern crate (not under
src/); the in-repo test `test_ord_function_name` (id.rs lines 356-366, expected
order `["Bar", "foo", "foo2"]`) pins it to byte-lexicographic comparison of the
interned string content, so it is modelled as `strCmp` of the contents (a
raw-handle comparison would sort `"foo"`, interned first, before `"Bar"` and
fail that test). -/
def StringId.cmp (tbl : List String) (a b : Nat) : Ordering :=
  strCmp (lookupStr tbl a) (lookupStr tbl b)

/-- Source `Ord for FunctionName` (id.rs lines 292-299): `Equal` when the
case-insensitive `eq` holds, otherwise `self.0.cmp(&other.0)`. -/
def FunctionName.cmp (tbl : List String) (a b : FunctionName) : Ordering :=
  if FunctionName.eq tbl a b then .eq else StringId.cmp tbl a.id b.id

/-- Insertion into a hashed uniqueness-checked collection (`HashSet`):
a candidate is a duplicate only if some present element has the same hash
value and compares equal. -/
def hashedInsert (tbl : List String) (s : List FunctionName) (x : FunctionName) :
    List FunctionName :=
  if s.any (fun y => FunctionName.hash y == FunctionName.hash x && FunctionName.eq tbl y x)
  then s else s ++ [x]

/-! ## AdataId (src/hphp/hack/src/hackc/hhbc/id.rs lines 172-204) -/

/-- Value of a nonempty all-decimal-digit char list, `none` otherwise. -/
def decDigitsVal : List Char → Option Nat
  | [] => none
  | [c] => if c.isDigit then some (c.toNat - '0'.toNat) else none
  | c :: rest =>
    if c.isDigit then
      match decDigitsVal rest with
      | some v => some ((c.toNat - '0'.toNat) * 10 ^ rest.length + v)
      | none => none
    else none

/-- Source `u32::from_str`: an optional leading `+` sign, then one or more decimal
digits, rejecting values outside the u32 range. -/
def u32FromStr (s : List Char) : Option Nat :=
  let digits := match s with
    | '+' :: rest => rest
    | other => other
  match decDigitsVal digits with
  | some v => if v < u32Mod then some v else none
  | none => none

/-- Source `s.strip_prefix("A_").unwrap_or("")` (id.rs line 191). -/
def adataStripTag : List Char → List Char
  | 'A' :: '_' :: rest => rest
  | _ => []

/-- Source `AdataId::parse` (id.rs lines 188-193); a `ParseIntError` is `none`. -/
def AdataId.parse (s : String) : Option Nat :=
  u32FromStr (adataStripTag s.data)

/-- Source `Display for AdataId` (id.rs lines 200-204): `write!(f, "A_{}", self.id)`. -/
def AdataId.display (id : Nat) : String := "A_" ++ toString id

/-! ## Typed constant values and their conversion
(src/hphp/hack/src/hackc/ir/conversions/ir_to_bc/convert.rs lines 145-185)

Byte strings are `List Nat` (byte values).  Both interners are modelled
extensionally: a string handle stands for the interned byte content itself
(equal handles iff equal bytes, spec section 4.1), so `lookup_bytes` and
`intern_string`/`intern_bytes` are the identity, and `intern` (which goes
through `str::from_utf8`, strings.rs lines 36-40) succeeds exactly on valid
UTF-8 content. -/

/-- Byte strings. -/
def ByteStr := List Nat
deriving DecidableEq, Repr

/-- A UTF-8 continuation byte, `0x80..=0xBF`. -/
def isUtf8Cont (b : Nat) : Bool := 0x80 ≤ b && b ≤ 0xBF

/-- Source `str::from_utf8` validity (RFC 3629 as implemented by core's
`run_utf8_validation`: overlong encodings, surrogates and values above
U+10FFFF rejected). -/
def isValidUtf8 : List Nat → Bool
  | [] => true
  | b :: rest =>
    if b ≤ 0x7F then isValidUtf8 rest
    else if 0xC2 ≤ b && b ≤ 0xDF then
      match rest with
      | c1 :: r => isUtf8Cont c1 && isValidUtf8 r
      | _ => false
    else if b = 0xE0 then
      match rest with
      | c1 :: c2 :: r => (0xA0 ≤ c1 && c1 ≤ 0xBF) && isUtf8Cont c2 && isValidUtf8 r
      | _ => false
    else if (0xE1 ≤ b && b ≤ 0xEC) || b = 0xEE || b = 0xEF then
      match rest with
      | c1 :: c2 :: r => isUtf8Cont c1 && isUtf8Cont c2 && isValidUtf8 r
      | _ => false
    else if b = 0xED then
      match rest with
      | c1 :: c2 :: r => (0x80 ≤ c1 && c1 ≤ 0x9F) && isUtf8Cont c2 && isValidUtf8 r
      | _ => false
    else if b = 0xF0 then
      match rest with
      | c1 :: c2 :: c3 :: r =>
        (0x90 ≤ c1 && c1 ≤ 0xBF) && isUtf8Cont c2 && isUtf8Cont c3 && isValidUtf8 r
      | _ => false
    else if 0xF1 ≤ b && b ≤ 0xF3 then
      match rest with
      | c1 :: c2 :: c3 :: r =>
        isUtf8Cont c1 && isUtf8Cont c2 && isUtf8Cont c3 && isValidUtf8 r
      | _ => false
    else if b = 0xF4 then
      match rest with
      | c1 :: c2 :: c3 :: r =>
        (0x80 ≤ c1 && c1 ≤ 0x8F) && isUtf8Cont c2 && isUtf8Cont c3 && isValidUtf8 r
      | _ => false
    else false

/-- Source `ir::ArrayKey`.  Modelled from the spec: `ir::TypedValue`/`ArrayKey` are
defined in ir_core (typed_value.rs, not under src/); spec section 3 restricts
`ArrayKey` to `Int | String | LazyClass`, matching the three cases
`convert_array_key` handles. -/
inductive IrArrayKey where
  | int (v : Int)
  | string (bytes : ByteStr)
  | lazyClass (bytes : ByteStr)
deriving DecidableEq, Repr

/-- Source `ir::TypedValue`.  Modelled from the spec (section 3): `Uninit | Null |
Bool | Int(i64) | Float(f64) | String | LazyClass | Vec | Keyset(ArrayKey
elements) | Dict(ordered (ArrayKey, TypedValue) pairs)`, matching the cases
`convert_typed_value` (convert.rs lines 145-173) destructures.  The `f64`
payload is represented by its bit pattern (`FloatBits`); the i64 payload
passes through unchanged so it is left as `Int`. -/
inductive IrTypedValue where
  | uninit
  | int (v : Int)
  | bool (v : Bool)
  | float (bits : Nat)
  | string (bytes : ByteStr)
  | lazyClass (bytes : ByteStr)
  | null
  | vec (elems : List IrTypedValue)
  | keyset (elems : List IrArrayKey)
  | dict (entries : List (IrArrayKey × IrTypedValue))

/-- Source `hhbc::TypedValue`.  Modelled from the spec (section 3): same grammar on
the persisted side; `Dict` entries are `hhbc::Entry { key, value }` with keys
held as `TypedValue` (the shape `convert_typed_value` produces). -/
inductive HhbcTypedValue where
  | uninit
  | int (v : Int)
  | bool (v : Bool)
  | float (bits : Nat)
  | string (bytes : ByteStr)
  | lazyClass (bytes : ByteStr)
  | null
  | vec (elems : List HhbcTypedValue)
  | keyset (elems : List HhbcTypedValue)
  | dict (entries : List (HhbcTypedValue × HhbcTypedValue))

/-- Source `convert_array_key` (convert.rs lines 175-185).  `String` goes through
`intern_string` on the looked-up bytes (no text requirement); `LazyClass`
goes through `StringCache::intern`, whose `expect("non-utf8 class name")`
panic on invalid UTF-8 is modelled as `none`. -/
def convertArrayKey (k : IrArrayKey) : Option HhbcTypedValue :=
  match k with
  | .int v => some (.int v)
  | .lazyClass bytes => if isValidUtf8 bytes then some (.lazyClass bytes) else none
  | .string bytes => some (.string bytes)

mutual
/-- Source `convert_typed_value` (convert.rs lines 145-173).  The
`expect("non-utf8 class name")` panic is modelled as `none`. -/
def convertTypedValue : IrTypedValue → Option HhbcTypedValue
  | .uninit => some .uninit
  | .int v => some (.int v)
  | .bool v => some (.bool v)
  | .float bits => some (.float bits)
  | .string bytes => some (.string bytes)
  | .lazyClass bytes => if isValidUtf8 bytes then some (.lazyClass bytes) else none
  | .null => some .null
  | .vec vs => (convertTvList vs).map .vec
  | .keyset ks => (ks.mapM convertArrayKey).map .keyset
  | .dict es => (convertEntryList es).map .dict

/-- Elementwise conversion of `Vec` payloads (the `Vec::from_iter(vs.iter()
.map(...))` of convert.rs line 159), propagating a panic as `none`. -/
def convertTvList : List IrTypedValue → Option (List HhbcTypedValue)
  | [] => some []
  | v :: rest => do
    let hd ← convertTypedValue v
    let tl ← convertTvList rest
    pure (hd :: tl)

/-- Pairwise conversion of `Dict` entries (convert.rs lines 164-171): the key
through `convert_array_key`, the value through `convert_typed_value`, in
order. -/
def convertEntryList : List (IrArrayKey × IrTypedValue) →
    Option (List (HhbcTypedValue × HhbcTypedValue))
  | [] => some []
  | (k, v) :: rest => do
    let key ← convertArrayKey k
    let value ← convertTypedValue v
    let tl ← convertEntryList rest
    pure ((key, value) :: tl)
end

/-! ## Unit-level IR → bytecode conversion
(src/hphp/hack/src/hackc/ir/conversions/ir_to_bc/convert.rs lines 19-143)

The per-item class/function/typedef/constant converters live in class.rs,
func.rs, types.rs and constant.rs, which are not under src/; `irToBc` is
therefore parameterized by them (over arbitrary payload types), so every
theorem below holds for any implementation of the missing converters. -/

/-- Source `ir::SrcLoc`.  Modelled from the spec: the source-location record
carried by `Fatal` (spec section 3); ir_core's loc.rs is not under src/. -/
structure SrcLoc where
  line_begin : Int
  col_begin : Int
  line_end : Int
  col_end : Int
deriving DecidableEq, Repr

/-- Source `hhbc::Span`.  Modelled from the spec: the line span a module
declaration carries (`src_loc.to_span()`, convert.rs line 53). -/
structure Span where
  line_begin : Int
  line_end : Int
deriving DecidableEq, Repr

/-- Source `SrcLoc::to_span` (ir_core, not under src/).  Modelled from the
spec: projects the line range of the location. -/
def SrcLoc.toSpan (l : SrcLoc) : Span := ⟨l.line_begin, l.line_end⟩

/-- Source `SrcLoc::to_hhbc` (convert.rs line 75; definition in ir_core, not
under src/).  Modelled from the spec (section 4.4): the terminal `Fatal`
record's location is carried through structurally unchanged. -/
def SrcLoc.toHhbc (l : SrcLoc) : SrcLoc := l

/-- Source `FatalOp` (defined by the opcodes generator, not under src/).
Modelled from the spec: section 3 pins the operation kind to
`Parse | Runtime | RuntimeOmitFrame`, the exact variant list the assembler's
exhaustive keyword table for `hhbc::FatalOp` (assemble_imm.rs lines 46-49)
enumerates.  `ir::FatalOp` is the re-exported same enum. -/
inductive FatalOp where
  | parse
  | runtime
  | runtimeOmitFrame
deriving DecidableEq, Repr

/-- Source `hhbc::Fatal` (unit.rs lines 48-52). -/
structure Fatal where
  op : FatalOp
  loc : SrcLoc
  message : ByteStr
deriving DecidableEq, Repr

/-- Source `ir::Fatal` (same shape; convert.rs line 66 destructures
`ir::Fatal { op, loc, message }`). -/
structure IrFatal where
  op : FatalOp
  loc : SrcLoc
  message : ByteStr
deriving DecidableEq, Repr

/-- Source translation of the `Fatal` operation kind (convert.rs lines 67-72):
`Parse → Parse`, `Runtime → Runtime`, `RuntimeOmitFrame → RuntimeOmitFrame`.
The wildcard `_ => unreachable!()` arm has no inhabitant here because the
enum has exactly the three pinned variants. -/
def convertFatalOp : FatalOp → FatalOp
  | .parse => .parse
  | .runtime => .runtime
  | .runtimeOmitFrame => .runtimeOmitFrame

/-- Source `ir::Attribute` (ir_core, not under src/): a class name (held as an
interned handle, modelled extensionally as its bytes) plus typed-value
arguments, the two fields convert_attributes (convert.rs lines 127-143)
reads. -/
structure IrAttribute where
  name : ByteStr
  arguments : List IrTypedValue

/-- Source `hhbc::Attribute`: the converted name and arguments. -/
structure HhbcAttribute where
  name : ByteStr
  arguments : List HhbcTypedValue

/-- Source `convert_attributes` (convert.rs lines 127-143): converts each
argument with `convert_typed_value` and the name through
`lookup_class_name`, whose `expect("non-utf8 class name")` panic (strings.rs
lines 42-46) is modelled as `none`. -/
def convertAttributes (attrs : List IrAttribute) : Option (List HhbcAttribute) :=
  attrs.mapM fun attr => do
    let arguments ← attr.arguments.mapM convertTypedValue
    let name ← if isValidUtf8 attr.name then some attr.name else none
    pure { name := name, arguments := arguments }

/-- Source `SymbolRefs` (unit.rs line 33; same shape on the ir side): the four
symbol-reference name lists. -/
structure SymbolRefs where
  classes : List ByteStr
  constants : List ByteStr
  functions : List ByteStr
  includes : List ByteStr
deriving DecidableEq, Repr

/-- Source `convert_symbol_refs` (convert.rs lines 118-125): clones the four
fields across. -/
def convertSymbolRefs (s : SymbolRefs) : SymbolRefs :=
  { classes := s.classes
    constants := s.constants
    functions := s.functions
    includes := s.includes }

/-- Source `ir::Module` (ir_core, not under src/): the fields the inline
module conversion (convert.rs lines 47-59) reads. -/
structure IrModule where
  attributes : List IrAttribute
  name : ByteStr
  src_loc : SrcLoc
  doc_comment : Option ByteStr

/-- Source `hhbc::Module` as built by convert.rs lines 50-57 (`exports` and
`imports` are filled with `Maybe::Nothing`). -/
structure HhbcModule where
  attributes : List HhbcAttribute
  name : ByteStr
  span : Span
  doc_comment : Option ByteStr
  exports : Option Unit
  imports : Option Unit

/-- Source `ir::Unit`: the fields ir_to_bc (convert.rs lines 19-81) consumes,
with the class / function / typedef / constant payloads abstract (their
conversions live outside src/).  The arena interner handle (`strings`) is
dropped by the extensional string model. -/
structure IrUnit (IC IF IT IK : Type) where
  classes : List IC
  constants : List IK
  fatal : Option IrFatal
  file_attributes : List IrAttribute
  functions : List IF
  module_use : Option ByteStr
  modules : List IrModule
  symbol_refs : SymbolRefs
  typedefs : List IT

/-- Source `hhbc::Unit` (unit.rs lines 25-42), field for field. -/
structure HhbcUnit (HC HF HT HK : Type) where
  adata : List HhbcTypedValue
  functions : List HF
  classes : List HC
  modules : List HhbcModule
  typedefs : List HT
  file_attributes : List HhbcAttribute
  module_use : Option ByteStr
  symbol_refs : SymbolRefs
  constants : List HK
  fatal : Option Fatal
  missing_symbols : List ByteStr
  error_symbols : List ByteStr
  valid_utf8 : Bool
  invalid_utf8_offset : Nat

/-- Source `UnitBuilder` (convert.rs lines 83-87): the staged accumulator for
classes, functions and the adata constant pool (`AdataCache`, adata.rs, not
under src/, modelled by the pool it finishes into). -/
structure UnitBuilder (HC HF : Type) where
  adata_cache : List HhbcTypedValue
  functions : List HF
  classes : List HC

/-- Source `UnitBuilder::new` (convert.rs lines 90-96). -/
def UnitBuilder.new (HC HF : Type) : UnitBuilder HC HF :=
  { adata_cache := [], functions := [], classes := [] }

/-- Source `UnitBuilder::finish` (convert.rs lines 98-115): moves the
accumulated adata / functions / classes into a unit whose remaining fields
are defaults, with `valid_utf8: true` and `invalid_utf8_offset: 0`. -/
def UnitBuilder.finish {HC HF : Type} (HT HK : Type) (b : UnitBuilder HC HF) :
    HhbcUnit HC HF HT HK :=
  { adata := b.adata_cache
    functions := b.functions
    classes := b.classes
    typedefs := []
    file_attributes := []
    modules := []
    module_use := none
    symbol_refs := ⟨[], [], [], []⟩
    constants := []
    fatal := none
    missing_symbols := []
    error_symbols := []
    valid_utf8 := true
    invalid_utf8_offset := 0 }

/-- Source conversion of the `module_use` field (convert.rs lines 60-63):
`ir_unit.module_use.map(|id| strings.lookup_module_name(id))`, the
`expect("non-utf8 module name")` panic modelled as `none`. -/
def convertModuleUse (mu : Option ByteStr) : Option (Option ByteStr) :=
  match mu with
  | none => some none
  | some id => if isValidUtf8 id then some (some id) else none

/-- Source `ir_to_bc` (convert.rs lines 19-81), parameterized by the per-item
converters defined outside src/: `convert_class` and `convert_function`
(arbitrary transformers of the builder state), `convert_typedef` and
`convert_hack_constant` (per-item maps).  A panic anywhere (non-UTF-8 name
where text is required) is modelled as `none`. -/
def irToBc {IC HC IF HF IT HT IK HK : Type}
    (convertClass : UnitBuilder HC HF → IC → UnitBuilder HC HF)
    (convertFunction : UnitBuilder HC HF → IF → UnitBuilder HC HF)
    (convertTypedef : IT → HT)
    (convertHackConstant : IK → HK)
    (irUnit : IrUnit IC IF IT IK) : Option (HhbcUnit HC HF HT HK) := do
  let b0 := irUnit.classes.foldl convertClass (UnitBuilder.new HC HF)
  let b1 := irUnit.functions.foldl convertFunction b0
  let unit0 : HhbcUnit HC HF HT HK := b1.finish HT HK
  let fileAttributes ← convertAttributes irUnit.file_attributes
  let typedefs := irUnit.typedefs.map convertTypedef
  let constants := irUnit.constants.map convertHackConstant
  let modules ← irUnit.modules.mapM fun m => do
    let attributes ← convertAttributes m.attributes
    let name ← if isValidUtf8 m.name then some m.name else none
    pure { attributes := attributes
           name := name
           span := m.src_loc.toSpan
           doc_comment := m.doc_comment
           exports := none
           imports := none : HhbcModule }
  let moduleUse ← convertModuleUse irUnit.module_use
  let fatal := irUnit.fatal.map fun f =>
    { op := convertFatalOp f.op
      loc := f.loc.toHhbc
      message := f.message : Fatal }
  pure { unit0 with
         file_attributes := fileAttributes
         typedefs := typedefs
         constants := constants
         modules := modules
         module_use := moduleUse
         symbol_refs := convertSymbolRefs irUnit.symbol_refs
         fatal := fatal }

/-! ## Textual local-operand decoder
(src/hphp/hack/src/hackc/assemble/assemble_imm.rs lines 309-335)

The lexer (token.rs) is an external collaborator (spec section 6); tokens are
modelled from the spec as tagged byte strings with a source position.  The
`DeclMap` maps declared variable names (interned, modelled extensionally as
their bytes) to slot indices. -/

/-- Source position of a token.  Modelled from the spec: parse errors carry
the offending token and its position (spec section 7). -/
structure Pos where
  line : Nat
  col : Nat
deriving DecidableEq, Repr

/-- Lexer tokens.  Modelled from the spec (section 6): identifiers,
string/numeric literals and variable sigils over a fixed vocabulary; only the
variants the `Local` decoder distinguishes are spelled out, the rest grouped
as literals. -/
inductive Token where
  | variable (bytes : ByteStr) (pos : Pos)
  | identifier (bytes : ByteStr) (pos : Pos)
  | number (bytes : ByteStr) (pos : Pos)
  | strLiteral (bytes : ByteStr) (pos : Pos)

/-- Bytes of a token. -/
def Token.bytes : Token → ByteStr
  | .variable b _ => b
  | .identifier b _ => b
  | .number b _ => b
  | .strLiteral b _ => b

/-- Position of a token. -/
def Token.pos : Token → Pos
  | .variable _ p => p
  | .identifier _ p => p
  | .number _ p => p
  | .strLiteral _ p => p

/-- Source `DeclMap`: declared local name to slot index (spec section 6: built
externally from parameter order followed by explicit local declarations). -/
def DeclMap := List (ByteStr × Nat)

/-- Source `decl_map.get(&v)`: association lookup by name. -/
def declMapGet : DeclMap → ByteStr → Option Nat
  | [], _ => none
  | (k, idx) :: rest, v => if k = v then some idx else declMapGet rest v

/-- Errors of the local decoder, each carrying what the source's error path
carries. -/
inductive AsmError where
  | unknownLocalVar (name : ByteStr) (pos : Pos)
  | unknownLocal (tok : ByteStr) (pos : Pos)
  | expectedLocal
  | utf8Error
  | parseIntError
  | sliceBounds
deriving DecidableEq, Repr

/-- Source `hhbc::Local`: a u32 slot index. -/
structure Local where
  idx : Nat
deriving DecidableEq, Repr

/-- Bytes reinterpreted as chars (valid for the post-UTF-8-check digit / sign
parsing the decoder does: bytes outside ASCII are non-digits either way). -/
def bytesToChars (bs : ByteStr) : List Char :=
  bs.map Char.ofNat

/-- Source `AssembleImm<hhbc::Local> for Lexer` (assemble_imm.rs lines
309-335), as a function of the single token `self.next()` yields: a
`Variable` is interned and resolved through the decl map, failing with
`bail!("Unknown local var: {:?} at {:?}", v, p)` when absent; an
`Identifier` has its leading `_` stripped and the rest parsed as a `u32`
slot index, with no decl-map lookup and no bounds check; any other token is
`tok.error("Unknown local")`; end of stream is `self.error("Expected
local")`. -/
def assembleImmLocal (tok : Option Token) (declMap : DeclMap) :
    Except AsmError Local :=
  match tok with
  | some (.variable v p) =>
    if isValidUtf8 v then
      match declMapGet declMap v with
      | some idx => .ok ⟨idx⟩
      | none => .error (.unknownLocalVar v p)
    else .error .utf8Error
  | some (.identifier i _) =>
    match i with
    | [] => .error .sliceBounds
    | _ :: rest =>
      if isValidUtf8 rest then
        match u32FromStr (bytesToChars rest) with
        | some idx => .ok ⟨idx⟩
        | none => .error .parseIntError
      else .error .utf8Error
  | some t => .error (.unknownLocal t.bytes t.pos)
  | none => .error .expectedLocal

/-- Byte string of a Lean string literal (ASCII in all uses below). -/
def strBytes (s : String) : ByteStr :=
  s.data.map Char.toNat

/-! ## Theorems -/

/-- C2 (counterexample).  The produced-value index `2^31` is a valid u32 and
is not the reserved none sentinel, yet `from_instr(2^31)` wraps through the
`as i32` cast to exactly `i32::MIN`: the result decodes as the absence value,
`instr()` is `None` and `is_instr()` is false, refuting the claim as stated
for every non-sentinel index. -/
theorem valueId_fromInstr_wraps_at_two_pow_31 :
    (2 ^ 31 < u32Mod ∧ 2 ^ 31 ≠ InstrId.noneId) ∧
    ValueId.fromInstr (2 ^ 31) = some ValueId.noneValue ∧
    ValueId.noneValue.instr = none ∧
    ValueId.noneValue.isInstr = false ∧
    ValueId.noneValue.isNone = true := by
  decide

/-- C2 (amended).  For every produced-value index `i < 2^31` the round trip
`from_instr` / `instr` / `is_instr` behaves as claimed, for every constant
index `c < 2^31 - 1` the round trip `from_constant` / `constant` /
`is_constant` behaves as claimed, and `none()` decodes as `is_none` — the
index bounds (rather than only sentinel-exclusion) are forced by the
wrapping `as i32` casts. -/
theorem valueId_encode_decode (i c : Nat) (hi : i < 2 ^ 31) (hc : c < 2 ^ 31 - 1) :
    (∃ v, ValueId.fromInstr i = some v ∧ v.instr = some i ∧ v.isInstr = true) ∧
    (∃ w, ValueId.fromConstant c = some w ∧ w.constant = some c ∧ w.isConstant = true) ∧
    ValueId.noneValue.isNone = true := by
  refine ⟨⟨⟨(i : Int)⟩, ?_, ?_, ?_⟩, ⟨⟨-(c : Int) - 1⟩, ?_, ?_, ?_⟩, by decide⟩
  · unfold ValueId.fromInstr InstrId.noneId u32ToI32 u32Mod
    rw [if_neg (by omega), if_pos (by omega), Nat.mod_eq_of_lt (by omega)]
  · unfold ValueId.instr i32ToU32 u32Mod
    dsimp only
    rw [if_pos (by omega)]
    congr 1
    omega
  · unfold ValueId.isInstr
    dsimp only
    simp only [decide_eq_true_eq]
    omega
  · unfold ValueId.fromConstant ConstantId.noneId u32ToI32 i32Not u32Mod
    rw [if_neg (by omega), if_pos (by omega), Nat.mod_eq_of_lt (by omega)]
  · unfold ValueId.constant i32ToU32 i32Not i32Min u32Mod
    dsimp only
    rw [if_neg (by push_neg; omega)]
    congr 1
    omega
  · unfold ValueId.isConstant i32Min
    dsimp only
    simp only [decide_eq_true_eq]
    omega

/-- C2 (witness): the amended round trip at `i = 3`, `c = 5`. -/
theorem valueId_encode_decode_witness :
    (∃ v, ValueId.fromInstr 3 = some v ∧ v.instr = some 3 ∧ v.isInstr = true) ∧
    (∃ w, ValueId.fromConstant 5 = some w ∧ w.constant = some 5 ∧ w.isConstant = true) ∧
    ValueId.noneValue.isNone = true :=
  valueId_encode_decode 3 5 (by norm_num) (by norm_num)

/-- C6.  For every `ValueId` built through the three constructors, exactly one
of `is_instr` / `is_constant` / `is_none` holds, and the total decoding
`full()` yields exactly the variant the set predicate announces. -/
theorem valueId_accessors_mutually_exclusive (v : ValueId)
    (_hv : ValueId.Constructed v) :
    exactlyOneOf v.isInstr v.isConstant v.isNone ∧
    ((∃ i, v.full = .instr i ∧ v.isInstr = true) ∨
     (∃ c, v.full = .constant c ∧ v.isConstant = true) ∨
     (v.full = .none ∧ v.isNone = true)) := by
  unfold exactlyOneOf ValueId.isInstr ValueId.isConstant ValueId.isNone ValueId.full
  by_cases h1 : 0 ≤ v.raw
  · have h2 : v.raw ≠ i32Min := by unfold i32Min; omega
    refine ⟨Or.inl ⟨by simpa, by simp [h2]; omega, by simp [h2]⟩,
      Or.inl ⟨i32ToU32 v.raw, ?_, by simpa⟩⟩
    rw [if_pos h1]
  · by_cases h2 : v.raw = i32Min
    · refine ⟨Or.inr (Or.inr ⟨by simpa using h1, by simp [h2], by simpa⟩),
        Or.inr (Or.inr ⟨?_, by simpa⟩)⟩
      rw [if_neg h1, if_pos h2]
    · refine ⟨Or.inr (Or.inl ⟨by simpa using h1, by simp [h2]; omega, by simpa⟩),
        Or.inr (Or.inl ⟨i32ToU32 (i32Not v.raw), ?_, by simp [h2]; omega⟩)⟩
      rw [if_neg h1, if_neg h2]

/-- C6 (witness): the exclusive decoding at the value built by
`from_instr(3)`. -/
theorem valueId_accessors_mutually_exclusive_witness :
    exactlyOneOf (ValueId.mk 3).isInstr (ValueId.mk 3).isConstant
      (ValueId.mk 3).isNone ∧
    ((∃ i, (ValueId.mk 3).full = .instr i ∧ (ValueId.mk 3).isInstr = true) ∨
     (∃ c, (ValueId.mk 3).full = .constant c ∧ (ValueId.mk 3).isConstant = true) ∨
     ((ValueId.mk 3).full = .none ∧ (ValueId.mk 3).isNone = true)) :=
  valueId_accessors_mutually_exclusive ⟨3⟩ (Or.inl ⟨3, by decide⟩)

/-- Helper: the bespoke char comparison is `Equal` exactly on equal chars. -/
theorem charCmp_eq_iff (a b : Char) : charCmp a b = .eq ↔ a = b := by
  unfold charCmp
  constructor
  · intro h
    split at h
    · exact absurd h (by simp)
    · split at h
      · exact Char.ext (UInt32.ext ‹_›)
      · exact absurd h (by simp)
  · intro h
    subst h
    simp

/-- Helper: lexicographic char-list comparison is `Equal` exactly on equal
lists. -/
theorem listCmp_eq_iff (a b : List Char) : listCmp a b = .eq ↔ a = b := by
  induction a generalizing b with
  | nil => cases b <;> simp [listCmp]
  | cons x xs ih =>
    cases b with
    | nil => simp [listCmp]
    | cons y ys =>
      unfold listCmp
      rcases h : charCmp x y with _ | _ | _
      · simp only [h]
        constructor
        · intro hEq
          exact absurd hEq (by simp)
        · intro hEq
          rw [List.cons_eq_cons] at hEq
          rw [← charCmp_eq_iff x y] at hEq
          rw [hEq.1] at h
          cases h
      · simp only [h, ih, List.cons_eq_cons, charCmp_eq_iff x y |>.mp h]
        tauto
      · simp only [h]
        constructor
        · intro hEq
          exact absurd hEq (by simp)
        · intro hEq
          rw [List.cons_eq_cons] at hEq
          rw [← charCmp_eq_iff x y] at hEq
          rw [hEq.1] at h
          cases h

/-- Helper: `strCmp` is `Equal` exactly on equal strings. -/
theorem strCmp_eq_iff (a b : String) : strCmp a b = .eq ↔ a = b := by
  unfold strCmp
  rw [listCmp_eq_iff]
  exact ⟨String.ext, fun h => by rw [h]⟩

/-- Helper: `strCaseEq` is reflexive. -/
theorem strCaseEq_refl (s : String) : strCaseEq s s = true := by
  simp [strCaseEq]

/-- C5 (counterexample).  Intern `"foo"` before `"Bar"`, so `"foo"` receives
the smaller raw handle 0 and `"Bar"` handle 1; the names are not
ASCII-case-equal, and interning (raw-handle) order would put `"foo"` first
(`compare 0 1 = .lt`), but `Ord::cmp` yields `.gt`: the fallback order is the
byte-lexicographic order of the interned content — as the in-repo test
`test_ord_function_name` (expected `["Bar", "foo", "foo2"]`) requires — not
the interning order the claim states. -/
theorem functionName_cmp_not_interning_order :
    internStr [] "foo" = (["foo"], 0) ∧
    internStr ["foo"] "Bar" = (["foo", "Bar"], 1) ∧
    FunctionName.eq ["foo", "Bar"] ⟨0⟩ ⟨1⟩ = false ∧
    FunctionName.cmp ["foo", "Bar"] ⟨0⟩ ⟨1⟩ = .gt ∧
    compare (0 : Nat) 1 = .lt := by
  decide

/-- C5 (amended).  `Ord::cmp` on `FunctionName` returns `Equal` exactly when
the two interned byte strings match ASCII-case-insensitively; when they are
not case-equal, the order is the byte-lexicographic order of the raw
(non-case-folded) interned string content, compared through the underlying
`StringId`s. -/
theorem functionName_cmp_spec (tbl : List String) (a b : FunctionName) :
    (FunctionName.cmp tbl a b = .eq ↔
      strCaseEq (lookupStr tbl a.id) (lookupStr tbl b.id) = true) ∧
    (strCaseEq (lookupStr tbl a.id) (lookupStr tbl b.id) = false →
      FunctionName.cmp tbl a b =
        strCmp (lookupStr tbl a.id) (lookupStr tbl b.id)) := by
  constructor
  · unfold FunctionName.cmp FunctionName.eq StringId.cmp
    split
    · simp [*]
    · constructor
      · intro h
        rw [strCmp_eq_iff] at h
        rw [h] at *
        simp [strCaseEq_refl] at *
      · intro h
        simp [h] at *
  · intro h
    unfold FunctionName.cmp FunctionName.eq StringId.cmp
    rw [if_neg (by simp [h])]

/-- C5 (witness): the amended fallback at the counterexample table — not
case-equal, so `cmp` is the lexicographic content comparison (which is `.gt`
here, against interning order). -/
theorem functionName_cmp_spec_witness :
    FunctionName.cmp ["foo", "Bar"] ⟨0⟩ ⟨1⟩ = strCmp "foo" "Bar" ∧
    (FunctionName.cmp ["foo", "Bar"] ⟨0⟩ ⟨0⟩ = .eq ↔
      strCaseEq "foo" "foo" = true) := by
  have h := functionName_cmp_spec ["foo", "Bar"] ⟨0⟩ ⟨1⟩
  have h0 := functionName_cmp_spec ["foo", "Bar"] ⟨0⟩ ⟨0⟩
  exact ⟨h.2 (by decide), h0.1⟩

/-- C4 (failing input evaluated).  `"foo"` interned first (raw handle 0),
`"FOO"` second (raw handle 1): the two `FunctionName`s compare equal under the
case-insensitive `PartialEq`, yet the derived `Hash` — which feeds the raw
`StringId` — gives them different hash values, so a hashed
uniqueness-checked collection (`HashSet` semantics: a duplicate must share
the hash and compare equal) retains BOTH entries, contradicting the claim
(and the `Hash`/`Eq` consistency contract the std `Hash` documentation
requires of these impls). -/
theorem functionName_hash_breaks_hashed_uniqueness :
    internStr [] "foo" = (["foo"], 0) ∧
    internStr ["foo"] "FOO" = (["foo", "FOO"], 1) ∧
    FunctionName.eq ["foo", "FOO"] ⟨0⟩ ⟨1⟩ = true ∧
    FunctionName.hash ⟨0⟩ ≠ FunctionName.hash ⟨1⟩ ∧
    (hashedInsert ["foo", "FOO"] (hashedInsert ["foo", "FOO"] [] ⟨0⟩) ⟨1⟩).length
      = 2 := by
  decide

/-- C9.  Formatting the constant-pool id 42 yields `"A_42"`, parsing that text
yields 42 again, and parsing malformed texts (missing `A_` tag, or a
non-numeric remainder) fails. -/
theorem adataId_display_parse_round_trip :
    AdataId.display 42 = "A_42" ∧
    AdataId.parse (AdataId.display 42) = some 42 ∧
    AdataId.parse "42" = none ∧
    AdataId.parse "A_xy" = none ∧
    AdataId.parse "" = none := by
  decide

/-- C8.  With the local table `{$a: 0, $b: 1}`: the variable token `$a`
decodes to the stored slot 0; the identifier token `_3` decodes to slot 3
directly — for ANY local table, never consulting it and never checking the
slot against the table size; the variable token `$z`, absent from the table,
fails with the unresolved-local parse error carrying the token bytes and its
position. -/
theorem assemble_local_decoding (p : Pos) :
    assembleImmLocal (some (.variable (strBytes "$a") p))
      [(strBytes "$a", 0), (strBytes "$b", 1)] = .ok ⟨0⟩ ∧
    (∀ declMap : DeclMap,
      assembleImmLocal (some (.identifier (strBytes "_3") p)) declMap = .ok ⟨3⟩) ∧
    assembleImmLocal (some (.variable (strBytes "$z") p))
      [(strBytes "$a", 0), (strBytes "$b", 1)]
      = .error (.unknownLocalVar (strBytes "$z") p) := by
  refine ⟨rfl, fun declMap => rfl, rfl⟩

/-- Helper: an elementwise `Option` map succeeds with a list of the same
length whose entries are the images, in order. -/
theorem mapM_option_spec {α β : Type} (f : α → Option β) :
    ∀ (l : List α) (l' : List β), l.mapM f = some l' →
      l'.length = l.length ∧
      ∀ i (h1 : i < l.length) (h2 : i < l'.length),
        f (l.get ⟨i, h1⟩) = some (l'.get ⟨i, h2⟩) := by
  intro l
  induction l with
  | nil =>
    intro l' h
    simp only [List.mapM_nil, Option.pure_def, Option.some.injEq] at h
    subst h
    exact ⟨rfl, fun i h1 _ => absurd h1 (by simp)⟩
  | cons x xs ih =>
    intro l' h
    rw [List.mapM_cons] at h
    rcases hb : f x with _ | b <;> rw [hb] at h
    · simp at h
    rcases hbs : xs.mapM f with _ | bs <;> rw [hbs] at h
    · simp at h
    simp at h
    subst h
    obtain ⟨hlen, hpt⟩ := ih bs hbs
    refine ⟨by simp [hlen], ?_⟩
    intro i h1 h2
    cases i with
    | zero => simpa using hb
    | succ n => simpa using hpt n (by simpa using h1) (by simpa using h2)

/-- Helper: the bespoke `Vec` element conversion is the elementwise `Option`
map of `convert_typed_value`. -/
theorem convertTvList_eq_mapM (vs : List IrTypedValue) :
    convertTvList vs = vs.mapM convertTypedValue := by
  induction vs with
  | nil =>
    simp only [convertTvList]
    rfl
  | cons v rest ih => rw [convertTvList, List.mapM_cons, ih]

/-- Source conversion of one `Dict` entry (the body of the closure at
convert.rs lines 165-169): key through `convert_array_key`, value through
`convert_typed_value`. -/
def convertEntry (kv : IrArrayKey × IrTypedValue) :
    Option (HhbcTypedValue × HhbcTypedValue) := do
  let key ← convertArrayKey kv.1
  let value ← convertTypedValue kv.2
  pure (key, value)

/-- Helper: the bespoke `Dict` entry-list conversion is the elementwise
`Option` map of `convertEntry`. -/
theorem convertEntryList_eq_mapM (es : List (IrArrayKey × IrTypedValue)) :
    convertEntryList es = es.mapM convertEntry := by
  induction es with
  | nil =>
    simp only [convertEntryList]
    rfl
  | cons kv rest ih =>
    obtain ⟨k, v⟩ := kv
    rw [convertEntryList, List.mapM_cons, ih]
    rcases hk : convertArrayKey k with _ | key <;>
      rcases hv : convertTypedValue v with _ | value <;>
      simp [convertEntry, hk, hv]

/-- Helper: a converted entry pairs the converted key with the converted
value. -/
theorem convertEntry_spec (k : IrArrayKey) (v : IrTypedValue)
    (e : HhbcTypedValue × HhbcTypedValue) (h : convertEntry (k, v) = some e) :
    convertArrayKey k = some e.1 ∧ convertTypedValue v = some e.2 := by
  unfold convertEntry at h
  rcases hk : convertArrayKey k with _ | key <;> rw [hk] at h
  · simp at h
  rcases hv : convertTypedValue v with _ | value <;> rw [hv] at h
  · simp at h
  simp at h
  subst h
  exact ⟨rfl, rfl⟩

/-- C3.  `convert_typed_value` maps every IR typed value to the same-shaped
persisted typed value: `Uninit`/`Null`/`Bool`/`Int`/`Float` pass through
directly (the float bit pattern preserved bit-for-bit); `Vec` converts
elementwise, same length, element `i` from element `i`; `Keyset` converts
each element through the restricted `convert_array_key` path, in order;
`Dict` converts entrywise preserving insertion order, entry `i`'s key from
entry `i`'s key and value from its value. -/
theorem convert_typed_value_shape :
    (convertTypedValue .uninit = some .uninit) ∧
    (convertTypedValue .null = some .null) ∧
    (∀ b, convertTypedValue (.bool b) = some (.bool b)) ∧
    (∀ v : Int, convertTypedValue (.int v) = some (.int v)) ∧
    (∀ bits, convertTypedValue (.float bits) = some (.float bits)) ∧
    (∀ vs, convertTypedValue (.vec vs) = (convertTvList vs).map .vec) ∧
    (∀ vs ws, convertTvList vs = some ws →
      ws.length = vs.length ∧
      ∀ i (h1 : i < vs.length) (h2 : i < ws.length),
        convertTypedValue (vs.get ⟨i, h1⟩) = some (ws.get ⟨i, h2⟩)) ∧
    (∀ ks : List IrArrayKey,
      convertTypedValue (.keyset ks) = (ks.mapM convertArrayKey).map .keyset) ∧
    (∀ (ks : List IrArrayKey) (ws : List HhbcTypedValue),
      ks.mapM convertArrayKey = some ws →
      ws.length = ks.length ∧
      ∀ i (h1 : i < ks.length) (h2 : i < ws.length),
        convertArrayKey (ks.get ⟨i, h1⟩) = some (ws.get ⟨i, h2⟩)) ∧
    (∀ es, convertTypedValue (.dict es) = (convertEntryList es).map .dict) ∧
    (∀ es fs, convertEntryList es = some fs →
      fs.length = es.length ∧
      ∀ i (h1 : i < es.length) (h2 : i < fs.length),
        convertArrayKey (es.get ⟨i, h1⟩).1 = some (fs.get ⟨i, h2⟩).1 ∧
        convertTypedValue (es.get ⟨i, h1⟩).2 = some (fs.get ⟨i, h2⟩).2) := by
  refine ⟨by rw [convertTypedValue], by rw [convertTypedValue],
    fun b => by rw [convertTypedValue], fun v => by rw [convertTypedValue],
    fun bits => by rw [convertTypedValue], fun vs => by rw [convertTypedValue],
    ?_, fun ks => by rw [convertTypedValue], mapM_option_spec convertArrayKey,
    fun es => by rw [convertTypedValue], ?_⟩
  · intro vs ws h
    rw [convertTvList_eq_mapM] at h
    exact mapM_option_spec convertTypedValue vs ws h
  · intro es fs h
    rw [convertEntryList_eq_mapM] at h
    obtain ⟨hlen, hpt⟩ := mapM_option_spec convertEntry es fs h
    refine ⟨hlen, fun i h1 h2 => ?_⟩
    have := convertEntry_spec (es.get ⟨i, h1⟩).1 (es.get ⟨i, h1⟩).2
      (fs.get ⟨i, h2⟩) (by simpa using hpt i h1 h2)
    exact this

/-- C3 (witness): the elementwise `Vec` and entrywise `Dict` facts evaluated
on a concrete nested value. -/
theorem convert_typed_value_shape_witness :
    ([HhbcTypedValue.int 7, HhbcTypedValue.null].length
        = [IrTypedValue.int 7, IrTypedValue.null].length) ∧
    ([((HhbcTypedValue.int 1 : HhbcTypedValue), HhbcTypedValue.bool true)].length
        = [((IrArrayKey.int 1 : IrArrayKey), IrTypedValue.bool true)].length) := by
  have h := convert_typed_value_shape
  refine ⟨(h.2.2.2.2.2.2.1 [IrTypedValue.int 7, IrTypedValue.null]
    [HhbcTypedValue.int 7, HhbcTypedValue.null] ?_).1,
    (h.2.2.2.2.2.2.2.2.2.2 [((IrArrayKey.int 1 : IrArrayKey), IrTypedValue.bool true)]
    [((HhbcTypedValue.int 1 : HhbcTypedValue), HhbcTypedValue.bool true)] ?_).1⟩
  · simp [convertTvList, convertTypedValue]
  · simp [convertEntryList, convertArrayKey, convertTypedValue]

/-- Helper: any successful run of `ir_to_bc` yields the record built from
`UnitBuilder::finish` with exactly the seven top-level fields reassigned
(convert.rs lines 32-78), for any implementation of the out-of-src per-item
converters. -/
theorem irToBc_eq_some {IC HC IF HF IT HT IK HK : Type}
    (convertClass : UnitBuilder HC HF → IC → UnitBuilder HC HF)
    (convertFunction : UnitBuilder HC HF → IF → UnitBuilder HC HF)
    (convertTypedef : IT → HT) (convertHackConstant : IK → HK)
    (irUnit : IrUnit IC IF IT IK) (out : HhbcUnit HC HF HT HK)
    (h : irToBc convertClass convertFunction convertTypedef convertHackConstant
      irUnit = some out) :
    ∃ fileAttributes modules moduleUse,
      convertAttributes irUnit.file_attributes = some fileAttributes ∧
      convertModuleUse irUnit.module_use = some moduleUse ∧
      out = { ((irUnit.functions.foldl convertFunction
                 (irUnit.classes.foldl convertClass
                   (UnitBuilder.new HC HF))).finish HT HK) with
              file_attributes := fileAttributes
              typedefs := irUnit.typedefs.map convertTypedef
              constants := irUnit.constants.map convertHackConstant
              modules := modules
              module_use := moduleUse
              symbol_refs := convertSymbolRefs irUnit.symbol_refs
              fatal := irUnit.fatal.map fun f =>
                { op := convertFatalOp f.op
                  loc := f.loc.toHhbc
                  message := f.message } } := by
  unfold irToBc at h
  simp only [Option.bind_eq_bind, Option.bind_eq_some] at h
  obtain ⟨fa, hfa, ms, hms, mu, hmu, hout⟩ := h
  simp only [Option.pure_def, Option.some.injEq] at hout
  exact ⟨fa, ms, mu, hfa, hmu, hout.symm⟩

/-- C7.  When the IR unit carries a `Fatal` record, the persisted unit
`ir_to_bc` returns (for any implementation of the out-of-src per-item
converters) carries it with the operation kind translated through the
exhaustive `Parse → Parse`, `Runtime → Runtime`, `RuntimeOmitFrame →
RuntimeOmitFrame` mapping and the source location and message bytes carried
through; the wildcard arm of the source match is unreachable, the enum
having exactly these three variants. -/
theorem irToBc_fatal_translation {IC HC IF HF IT HT IK HK : Type}
    (convertClass : UnitBuilder HC HF → IC → UnitBuilder HC HF)
    (convertFunction : UnitBuilder HC HF → IF → UnitBuilder HC HF)
    (convertTypedef : IT → HT) (convertHackConstant : IK → HK)
    (irUnit : IrUnit IC IF IT IK) (out : HhbcUnit HC HF HT HK) (f : IrFatal)
    (hf : irUnit.fatal = some f)
    (h : irToBc convertClass convertFunction convertTypedef convertHackConstant
      irUnit = some out) :
    out.fatal = some { op := convertFatalOp f.op
                       loc := f.loc.toHhbc
                       message := f.message } ∧
    convertFatalOp .parse = .parse ∧
    convertFatalOp .runtime = .runtime ∧
    convertFatalOp .runtimeOmitFrame = .runtimeOmitFrame := by
  obtain ⟨fa, ms, mu, _, _, hout⟩ :=
    irToBc_eq_some convertClass convertFunction convertTypedef
      convertHackConstant irUnit out h
  subst hout
  simp [hf, convertFatalOp]

/-- C10.  The persisted unit returned by `ir_to_bc` always has `valid_utf8 =
true`, `invalid_utf8_offset = 0` and empty `missing_symbols` /
`error_symbols`: they are set by `UnitBuilder::finish` and never reassigned,
for any input unit and any implementation of the out-of-src per-item
converters. -/
theorem irToBc_fresh_unit_flags {IC HC IF HF IT HT IK HK : Type}
    (convertClass : UnitBuilder HC HF → IC → UnitBuilder HC HF)
    (convertFunction : UnitBuilder HC HF → IF → UnitBuilder HC HF)
    (convertTypedef : IT → HT) (convertHackConstant : IK → HK)
    (irUnit : IrUnit IC IF IT IK) (out : HhbcUnit HC HF HT HK)
    (h : irToBc convertClass convertFunction convertTypedef convertHackConstant
      irUnit = some out) :
    out.valid_utf8 = true ∧ out.invalid_utf8_offset = 0 ∧
    out.missing_symbols = [] ∧ out.error_symbols = [] := by
  obtain ⟨fa, ms, mu, _, _, hout⟩ :=
    irToBc_eq_some convertClass convertFunction convertTypedef
      convertHackConstant irUnit out h
  subst hout
  simp [UnitBuilder.finish]

/-- Sample fatal record for evaluating the unit-level conversion. -/
def sampleIrFatal : IrFatal :=
  { op := .parse, loc := ⟨1, 2, 3, 4⟩, message := strBytes "oops" }

/-- Sample IR unit (empty but for the fatal record), with trivial payloads
for the abstract class / function / typedef / constant types. -/
def sampleIrUnit : IrUnit Unit Unit Unit Unit :=
  { classes := []
    constants := []
    fatal := some sampleIrFatal
    file_attributes := []
    functions := []
    module_use := none
    modules := []
    symbol_refs := ⟨[], [], [], []⟩
    typedefs := [] }

/-- The persisted unit `ir_to_bc` produces from `sampleIrUnit`. -/
def sampleHhbcUnit : HhbcUnit Unit Unit Unit Unit :=
  { adata := []
    functions := []
    classes := []
    modules := []
    typedefs := []
    file_attributes := []
    module_use := none
    symbol_refs := ⟨[], [], [], []⟩
    constants := []
    fatal := some { op := .parse, loc := ⟨1, 2, 3, 4⟩, message := strBytes "oops" }
    missing_symbols := []
    error_symbols := []
    valid_utf8 := true
    invalid_utf8_offset := 0 }

/-- Helper: the sample conversion evaluates as expected. -/
theorem sample_irToBc_run :
    irToBc (fun b (_ : Unit) => b) (fun b (_ : Unit) => b) (fun (_ : Unit) => ())
      (fun (_ : Unit) => ()) sampleIrUnit = some sampleHhbcUnit := by
  rfl

/-- C7 (witness): the fatal translation evaluated on the sample unit. -/
theorem irToBc_fatal_translation_witness :
    sampleHhbcUnit.fatal = some { op := convertFatalOp sampleIrFatal.op
                                  loc := sampleIrFatal.loc.toHhbc
                                  message := sampleIrFatal.message } ∧
    convertFatalOp .parse = .parse ∧
    convertFatalOp .runtime = .runtime ∧
    convertFatalOp .runtimeOmitFrame = .runtimeOmitFrame :=
  irToBc_fatal_translation (fun b (_ : Unit) => b) (fun b (_ : Unit) => b)
    (fun (_ : Unit) => ()) (fun (_ : Unit) => ()) sampleIrUnit sampleHhbcUnit
    sampleIrFatal rfl sample_irToBc_run

/-- C10 (witness): the freshly-set flags evaluated on the sample unit. -/
theorem irToBc_fresh_unit_flags_witness :
    sampleHhbcUnit.valid_utf8 = true ∧ sampleHhbcUnit.invalid_utf8_offset = 0 ∧
    sampleHhbcUnit.missing_symbols = [] ∧ sampleHhbcUnit.error_symbols = [] :=
  irToBc_fresh_unit_flags (fun b (_ : Unit) => b) (fun b (_ : Unit) => b)
    (fun (_ : Unit) => ()) (fun (_ : Unit) => ()) sampleIrUnit sampleHhbcUnit
    sample_irToBc_run

/-- C8 (witness): the decoder evaluated at position (1, 5), with the
identifier case run against the empty table (slot 3 is out of any bounds and
the table is never consulted). -/
theorem assemble_local_decoding_witness :
    assembleImmLocal (some (.variable (strBytes "$a") ⟨1, 5⟩))
      [(strBytes "$a", 0), (strBytes "$b", 1)] = .ok ⟨0⟩ ∧
    assembleImmLocal (some (.identifier (strBytes "_3") ⟨1, 5⟩)) [] = .ok ⟨3⟩ ∧
    assembleImmLocal (some (.variable (strBytes "$z") ⟨1, 5⟩))
      [(strBytes "$a", 0), (strBytes "$b", 1)]
      = .error (.unknownLocalVar (strBytes "$z") ⟨1, 5⟩) := by
  have h := assemble_local_decoding ⟨1, 5⟩
  exact ⟨h.1, h.2.1 [], h.2.2⟩
